import Mathlib

/-
Verification of the analyse controller (src/ui/analyse/src/ctrl.ts).

The controller coordinates a branching move tree, a cursor (current path),
a background analysis engine and an evaluation cache.  We embed the relevant
state and operations shallowly: JavaScript objects become structures,
optional / possibly-undefined fields become `Option`, side effects become an
explicit effect list emitted in source order.
-/

set_option maxRecDepth 4000

/-- A client evaluation record (`Tree.ClientEval`): search depth, maximal
requested depth, centipawn or mate score (either may be absent), whether it
comes from the cloud cache, and the crash-retry marker. -/
structure ClientEval where
  fen : String
  depth : Nat
  maxDepth : Nat
  cp : Option Int
  mate : Option Int
  cloud : Bool
  retried : Bool
  deriving DecidableEq, Repr

/-- One position node (`Tree.Node`): the payload fields the controller reads.
`comments` abstracts the comment list by its length. -/
structure NodeData where
  id : String
  ply : Nat
  fen : String
  uci : Option String
  san : Option String
  check : Bool
  dests : Option String
  drops : Option String
  threefold : Bool
  ceval : Option ClientEval
  threat : Option ClientEval
  comments : Nat
  deriving DecidableEq, Repr

/-- JavaScript truthiness of an optional string field: truthy exactly when
present and non-empty. -/
def jsTruthy : Option String → Bool
  | none => false
  | some s => s ≠ ""

/-- JavaScript truthiness of an optional integer field: truthy exactly when
present and non-zero. -/
def jsTruthyInt : Option Int → Bool
  | none => false
  | some m => m ≠ 0

/-- JavaScript test `Math.abs(cp) < 99` on a possibly-absent centipawn value:
an absent value yields NaN, and `NaN < 99` is false. -/
def cpMagLt99 : Option Int → Bool
  | none => false
  | some v => v.natAbs < 99

/-- Modelled from the spec: `isEvalBetter` is imported from the `ceval`
package, which is not under src/.  Per the spec, "evaluation A is better
than evaluation B if A has a higher search depth, or equal depth with a
cloud/verified source outranking a locally-computed one"; a missing stored
evaluation is always improved upon. -/
def isEvalBetter (ev : ClientEval) (other : Option ClientEval) : Bool :=
  match other with
  | none => true
  | some b => ev.depth > b.depth || (ev.depth = b.depth && ev.cloud && !b.cloud)

/-- Paths address nodes by the sequence of per-ply move identifiers from the
root (spec glossary); the root has the empty path. -/
abbrev TreePath := List String

/-- The side effects the controller triggers, in source order.  Each
constructor marks one call into a collaborator (board, sound, engine,
cache, overlays). -/
inductive Effect where
  | showGround
  | soundMove
  | soundCapture
  | soundCheck
  | studySetPath
  | cevalStop
  | startCevalCall
  | retroOnJump
  | practiceOnJump
  | studyOnJump
  | explorerSetNode
  | updateHref
  | autoScroll
  | promotionCancel
  | musicJump
  | setAutoShapes
  | retroOnCeval
  | practiceOnCeval
  | studyPracticeOnCeval
  | evalCacheOnCeval
  | redraw
  | instanciateCeval (failsafe : Bool)
  | cevalStart (path : TreePath) (threatMode : Bool)
  | evalCacheFetch (path : TreePath)
  | jumpTo (path : TreePath)
  | userJumpTo (path : TreePath)
  | playPremove
  | confirmAsk
  | studyDeleteNode (path : TreePath)
  deriving DecidableEq, Repr

/-- `gameOver` (ctrl.ts 567-572): non-false only when the node's `dests`
string is present and empty and `drops` is falsy; then `'checkmate'` if in
check, else `'draw'`.  `false` is modelled as `none`. -/
def gameOver (n : NodeData) : Option String :=
  if n.dests ≠ some "" ∨ jsTruthy n.drops then none
  else if n.check then some "checkmate"
  else some "draw"

/-- `canUseCeval` (ctrl.ts 574-576): the game is not over and the current
node is not flagged threefold. -/
def canUseCeval (n : NodeData) : Bool :=
  (gameOver n).isNone && !n.threefold

/-- The body of `startCeval` (ctrl.ts 578-585): when the engine is enabled,
either dispatch work for the current path/threat mode and fetch from the
evaluation cache, or stop the engine; when the engine is disabled, do
nothing. -/
def startCeval (enabled : Bool) (n : NodeData) (path : TreePath) (threatMode : Bool) :
    List Effect :=
  if enabled then
    if canUseCeval n then
      [Effect.cevalStart path threatMode, Effect.evalCacheFetch path]
    else [Effect.cevalStop]
  else []

/-- The `onCrash` callback (ctrl.ts 541-554): everything is guarded by
`pnaclSupported`; inside the guard, a first crash at depth ≥ 20 on a node
not yet retried only marks the node retried, anything else falls back to
the failsafe engine and restarts analysis.  Returns the (possibly updated)
client evaluation of the current node and the emitted effects. -/
def onCrash (pnaclSupported : Bool) (ceval : Option ClientEval) :
    Option ClientEval × List Effect :=
  if pnaclSupported then
    match ceval with
    | some c =>
      if 20 ≤ c.depth ∧ c.retried = false then
        (some { c with retried := true }, [])
      else (some c, [Effect.instanciateCeval true, Effect.startCevalCall])
    | none => (none, [Effect.instanciateCeval true, Effect.startCevalCall])
  else (ceval, [])

/-- `canEvalGet` (ctrl.ts 718-720): inside a study, or the node's ply is
below 10. -/
def canEvalGet (study : Bool) (node : NodeData) : Bool :=
  study || decide (node.ply < 10)

/-- The `canPut` closure of `instanciateEvalCache` (ctrl.ts 726-731),
evaluated with JavaScript short-circuiting.  `node.ceval!.mate` dereferences
a possibly-absent record: reaching it with `ceval` absent throws at runtime,
modelled as `none`. -/
def canPut (study evalPut : Bool) (node : NodeData) : Option Bool :=
  if evalPut = false then some false
  else if canEvalGet study node = false then some false
  else if study then some true
  else if 10 ≤ node.ply then some false
  else
    match node.ceval with
    | none => none
    | some c => some (!jsTruthyInt c.mate && cpMagLt99 c.cp)

/-- A convenient base node for concrete instances. -/
def baseNode : NodeData :=
  { id := "a", ply := 0, fen := "f0", uci := none, san := none, check := false,
    dests := none, drops := none, threefold := false, ceval := none,
    threat := none, comments := 0 }

/-- A terminal (stalemate-like) node: empty dests, no drops, not in check. -/
def drawNode : NodeData :=
  { baseNode with dests := some "" }

/-- A stored evaluation for the crash scenario: depth 22, never retried. -/
def crashEval : ClientEval :=
  { fen := "f0", depth := 22, maxDepth := 22, cp := some 10, mate := none,
    cloud := false, retried := false }

/-- A favorable shallow evaluation for the cache-eligibility witness. -/
def deepEval : ClientEval :=
  { fen := "f0", depth := 30, maxDepth := 30, cp := some 5, mate := none,
    cloud := false, retried := false }

/-- A deep-tree node at ply 12 with a favorable stored evaluation. -/
def deepNode : NodeData :=
  { baseNode with ply := 12, ceval := some deepEval }

/-- The ambient controller facts `onNewCeval` consults besides the node:
whether the evaluation's path is the live cursor path, which overlays are
active, and the engine's configured effective maximum depth. -/
structure CevalCtx where
  isCurrentPath : Bool
  hasRetro : Bool
  hasPractice : Bool
  hasStudyPractice : Bool
  effectiveMaxDepth : Nat
  deriving Repr

/-- The `onNewCeval` mutator (ctrl.ts 506-527) applied to the node resolved
at the evaluation's path (`tree.updateAt` is a no-op when the path resolves
to no node).  A non-threat evaluation whose fen differs from the node's is
discarded outright; a threat evaluation is stored when the slot is empty,
the evaluation is better, or its `maxDepth` is larger; a normal evaluation
replaces the stored one when better, else only bumps its `maxDepth`.  When
the path is the live cursor path, auto-shapes are recomputed, overlays are
notified (non-threat only) and a trusted cloud result at the effective
maximum depth stops the engine; finally a redraw is requested. -/
def onNewCevalNode (ev : ClientEval) (threatMode : Bool) (cx : CevalCtx)
    (node : NodeData) : NodeData × List Effect :=
  if node.fen ≠ ev.fen ∧ threatMode = false then (node, [])
  else
    let node2 :=
      if threatMode then
        match node.threat with
        | none => { node with threat := some ev }
        | some t =>
          if isEvalBetter ev (some t) = true ∨ t.maxDepth < ev.maxDepth then
            { node with threat := some ev }
          else node
      else if isEvalBetter ev node.ceval = true then { node with ceval := some ev }
      else
        match node.ceval with
        | some c =>
          if c.maxDepth < ev.maxDepth then
            { node with ceval := some { c with maxDepth := ev.maxDepth } }
          else node
        | none => node
    let effects :=
      if cx.isCurrentPath then
        Effect.setAutoShapes ::
          ((if threatMode = false then
              (if cx.hasRetro then [Effect.retroOnCeval] else []) ++
              (if cx.hasPractice then [Effect.practiceOnCeval] else []) ++
              (if cx.hasStudyPractice then [Effect.studyPracticeOnCeval] else []) ++
              [Effect.evalCacheOnCeval] ++
              (if ev.cloud = true ∧ cx.effectiveMaxDepth ≤ ev.depth then
                [Effect.cevalStop] else [])
            else []) ++ [Effect.redraw])
      else []
    (node2, effects)

/-- Repeated application of non-threat evaluations to one node. -/
def applyCevals (cx : CevalCtx) (evs : List ClientEval) (node : NodeData) : NodeData :=
  evs.foldl (fun n e => (onNewCevalNode e false cx n).1) node

/-- The move tree (spec §3): a root node owning an ordered list of child
subtrees, children addressed by their per-ply move id. -/
inductive MoveTree where
  | mk (data : NodeData) (children : List MoveTree)

/-- The payload of the subtree's root. -/
def MoveTree.data : MoveTree → NodeData
  | .mk d _ => d

/-- The subtree's ordered children. -/
def MoveTree.children : MoveTree → List MoveTree
  | .mk _ cs => cs

/-- Modelled from the spec: child lookup by move id inside the `tree`
package (which is not under src/) — the first child whose id matches. -/
def childById (cs : List MoveTree) (i : String) : Option MoveTree :=
  cs.find? (fun c => decide (c.data.id = i))

/-- Modelled from the spec: `tree.nodeAtPath` — follow ids from the root; a
path that does not resolve yields `none` (§4.1 edge-case policy). -/
def nodeAtPath : MoveTree → TreePath → Option MoveTree
  | t, [] => some t
  | t, i :: rest =>
    match childById t.children i with
    | some c => nodeAtPath c rest
    | none => none

/-- Modelled from the spec: `tree.getNodeList(path)` — the node payloads
from the root along `path`, stopping at the first id that does not resolve;
the root is always included. -/
def getNodeList : MoveTree → TreePath → List NodeData
  | t, [] => [t.data]
  | t, i :: rest =>
    t.data ::
      (match childById t.children i with
       | some c => getNodeList c rest
       | none => [])

/-- The cursor's node: the last element of the node list (ctrl.ts 160-166). -/
def currentNodeAt (t : MoveTree) (p : TreePath) : NodeData :=
  (getNodeList t p).getLastD t.data

mutual

/-- Modelled from the spec: the node count of
`treeOps.countChildrenAndComments` (the `tree` package is not under src/) —
the number of nodes in the subtree. -/
def countNodes : MoveTree → Nat
  | .mk _ cs => 1 + countNodesList cs

/-- Node count of a list of subtrees. -/
def countNodesList : List MoveTree → Nat
  | [] => 0
  | c :: cs => countNodes c + countNodesList cs

end

mutual

/-- Modelled from the spec: the comment count of
`treeOps.countChildrenAndComments` over the whole subtree. -/
def countComments : MoveTree → Nat
  | .mk d cs => d.comments + countCommentsList cs

/-- Comment count of a list of subtrees. -/
def countCommentsList : List MoveTree → Nat
  | [] => 0
  | c :: cs => countComments c + countCommentsList cs

end

/-- Modelled from the spec: `tree.deleteNodeAt(path)` — removes the subtree
rooted at `path` from its parent's children; the root itself is permanent. -/
def deleteNodeAt : MoveTree → TreePath → MoveTree
  | t, [] => t
  | .mk d cs, [i] => .mk d (cs.filter (fun c => !decide (c.data.id = i)))
  | .mk d cs, i :: rest =>
    .mk d (cs.map (fun c => if c.data.id = i then deleteNodeAt c rest else c))

/-- Modelled from the spec: the insertion performed by `tree.addNode` on
success — append the new node to the children of the node at `path`. -/
def insertNodeAt : MoveTree → NodeData → TreePath → MoveTree
  | .mk d cs, n, [] => .mk d (cs ++ [.mk n []])
  | .mk d cs, n, i :: rest =>
    .mk d (cs.map (fun c => if c.data.id = i then insertNodeAt c n rest else c))

/-- Modelled from the spec: `tree.addNode(node, path)` — returns the
resulting path on success; when `path` resolves to no node it returns a
failure sentinel (`none`) and leaves the tree unchanged. -/
def addNodeAt (t : MoveTree) (n : NodeData) (path : TreePath) :
    Option TreePath × MoveTree :=
  match nodeAtPath t path with
  | none => (none, t)
  | some _ => (some (path ++ [n.id]), insertNodeAt t n path)

/-- The controller state read and written by `jump` (ctrl.ts 287-316):
tree, cursor path, threat mode, the transient just-played markers and which
optional sub-controllers are attached. -/
structure Ctrl where
  tree : MoveTree
  path : TreePath
  threatMode : Bool
  justPlayed : Option String
  justDropped : Option String
  justCaptured : Bool
  hasStudy : Bool
  hasRetro : Bool
  hasPractice : Bool
  hasMusic : Bool

/-- The sound played on a committed path change (ctrl.ts 292-298): a move
sound at the initial position; otherwise, unless the node's uci starts with
the just-played square, a capture sound when the san holds an `x` and a
move sound otherwise; plus a check sound when the san holds a check or mate
mark. -/
def jumpSounds (node : NodeData) (justPlayed : Option String) : List Effect :=
  (match node.uci with
   | none => [Effect.soundMove]
   | some uci =>
     if (justPlayed.getD "").isPrefixOf uci = false then
       (if (node.san.getD "").contains 'x' then [Effect.soundCapture]
        else [Effect.soundMove])
     else []) ++
  (if (node.san.getD "").contains '+' ∨ (node.san.getD "").contains '#' then
    [Effect.soundCheck] else [])

/-- `jump` (ctrl.ts 287-316): recompute the cursor, re-render the board,
and — only when the path actually changed — notify the study, play a sound,
reset threat mode, stop and restart the engine, and notify the retro,
practice and study overlays; transient markers are cleared and the
explorer, deep link, auto-scroll, promotion dialog and music collaborators
run on every call. -/
def jump (s : Ctrl) (path : TreePath) : Ctrl × List Effect :=
  let node := currentNodeAt s.tree path
  let changedEffects :=
    (if s.hasStudy then [Effect.studySetPath] else []) ++
    jumpSounds node s.justPlayed ++
    [Effect.cevalStop, Effect.startCevalCall]
  let notifyEffects :=
    (if s.hasRetro then [Effect.retroOnJump] else []) ++
    (if s.hasPractice then [Effect.practiceOnJump] else []) ++
    (if s.hasStudy then [Effect.studyOnJump] else [])
  ({ s with path := path,
            threatMode := if path = s.path then s.threatMode else false,
            justPlayed := none, justDropped := none, justCaptured := false },
   Effect.showGround ::
     ((if path = s.path then [] else changedEffects) ++
      [Effect.explorerSetNode, Effect.updateHref, Effect.autoScroll,
       Effect.promotionCancel] ++
      (if path = s.path then [] else notifyEffects) ++
      (if s.hasMusic then [Effect.musicJump] else [])))

/-- The effects constituting one sound/engine-restart/notification cycle. -/
def jumpCycleEffects : List Effect :=
  [Effect.soundMove, Effect.soundCapture, Effect.soundCheck,
   Effect.studySetPath, Effect.cevalStop, Effect.startCevalCall,
   Effect.retroOnJump, Effect.practiceOnJump, Effect.studyOnJump]

/-- How many cycle effects an effect list triggers. -/
def cycleCount (ef : List Effect) : Nat :=
  (ef.filter (fun e => jumpCycleEffects.contains e)).length

/-- The node reached by the move e4. -/
def e4Node : NodeData :=
  { baseNode with id := "e4", ply := 1, uci := some "e2e4", san := some "e4" }

/-- A two-node sample tree: the root and the move e4. -/
def sampleTree : MoveTree :=
  .mk baseNode [.mk e4Node []]

/-- A sample controller sitting on the e4 node with threat mode on. -/
def sampleCtrl : Ctrl :=
  { tree := sampleTree, path := ["e4"], threatMode := true, justPlayed := none,
    justDropped := none, justCaptured := false, hasStudy := false,
    hasRetro := false, hasPractice := false, hasMusic := false }

/-- `deleteNode` (ctrl.ts 463-474).  `confirmAnswer` models the user's reply
to the confirmation dialog; `treePath.contains(this.path, path)` holds when
the current path starts with the deleted path and `treePath.init` drops the
last id (both from the `tree` package, modelled from the spec's
path-as-id-sequence glossary).  A missing node is a no-op; a subtree of 10
or more nodes or with comments needs confirmation; a performed deletion
removes the subtree and jumps: to the parent of the deleted path when the
cursor was inside the deleted subtree, else back to the current path. -/
def deleteNode (confirmAnswer : Bool) (s : Ctrl) (path : TreePath) :
    Ctrl × List Effect :=
  match nodeAtPath s.tree path with
  | none => (s, [])
  | some sub =>
    if (10 ≤ countNodes sub ∨ 0 < countComments sub) ∧ confirmAnswer = false then
      (s, [Effect.confirmAsk])
    else
      let askEffects :=
        if 10 ≤ countNodes sub ∨ 0 < countComments sub then [Effect.confirmAsk]
        else []
      let s2 := { s with tree := deleteNodeAt s.tree path }
      if path.isPrefixOf s.path then
        let r := jump s2 path.dropLast
        (r.1, askEffects ++ Effect.userJumpTo path.dropLast :: r.2 ++
          (if s.hasStudy then [Effect.studyDeleteNode path] else []))
      else
        let r := jump s2 s.path
        (r.1, askEffects ++ Effect.jumpTo s.path :: r.2 ++
          (if s.hasStudy then [Effect.studyDeleteNode path] else []))

/-- `addNode` (ctrl.ts 442-451): a failure sentinel from the tree leaves the
controller untouched apart from a redraw; a success jumps to the returned
path, then redraws and plays any pending premove. -/
def addNode (s : Ctrl) (n : NodeData) (path : TreePath) : Ctrl × List Effect :=
  match addNodeAt s.tree n path with
  | (none, t2) => ({ s with tree := t2 }, [Effect.redraw])
  | (some newPath, t2) =>
    let r := jump { s with tree := t2 } newPath
    (r.1, r.2 ++ [Effect.redraw, Effect.playPremove])

/-- A chain of n+1 nodes used to build a large subtree. -/
def chainTree : Nat → MoveTree
  | 0 => .mk { baseNode with id := "c" } []
  | n + 1 => .mk { baseNode with id := "c" } [chainTree n]

/-- A tree whose branch `a` holds 10 nodes and whose branch `b` is a leaf. -/
def bigTree : MoveTree :=
  .mk baseNode
    [.mk { baseNode with id := "a" } [chainTree 8], .mk { baseNode with id := "b" } []]

/-- A controller whose cursor sits on the `b` branch of `bigTree`. -/
def delCtrl : Ctrl :=
  { tree := bigTree, path := ["b"], threatMode := false, justPlayed := none,
    justDropped := none, justCaptured := false, hasStudy := false,
    hasRetro := false, hasPractice := false, hasMusic := false }

/-- A stored evaluation of depth 10. -/
def storedEval : ClientEval :=
  { fen := "f0", depth := 10, maxDepth := 18, cp := some 30, mate := none,
    cloud := false, retried := false }

/-- A lower-depth refresh of `storedEval` with a larger `maxDepth`. -/
def lowEval : ClientEval :=
  { storedEval with depth := 8, maxDepth := 21 }

/-- A node holding `storedEval`. -/
def evalNode : NodeData :=
  { baseNode with ceval := some storedEval }

/-- A quiescent evaluation context: not the cursor path, no overlays. -/
def cx0 : CevalCtx :=
  { isCurrentPath := false, hasRetro := false, hasPractice := false,
    hasStudyPractice := false, effectiveMaxDepth := 18 }

/-- C9: `gameOver(n)` is non-false exactly when `n.dests` is the empty
string and `n.drops` is falsy; then it is `'checkmate'` when `n.check` is
set and `'draw'` otherwise; and `canUseCeval` holds exactly when the game
is not over and the node is not flagged threefold. -/
theorem gameOver_canUseCeval_characterisation (n : NodeData) :
    ((gameOver n ≠ none) ↔ (n.dests = some "" ∧ jsTruthy n.drops = false)) ∧
    (n.dests = some "" → jsTruthy n.drops = false →
      gameOver n = some (if n.check then "checkmate" else "draw")) ∧
    (canUseCeval n = true ↔ (gameOver n = none ∧ n.threefold = false)) := by
  by_cases hd : n.dests = some "" <;>
  by_cases hdr : jsTruthy n.drops = true <;>
  by_cases hc : n.check = true <;>
  by_cases ht : n.threefold = true <;>
    simp_all [gameOver, canUseCeval]

/-- Witness for C9 at a concrete stalemate node. -/
theorem gameOver_canUseCeval_characterisation_witness :
    gameOver drawNode = some "draw" := by
  have h := (gameOver_canUseCeval_characterisation drawNode).2.1 (by decide) (by decide)
  simpa [drawNode, baseNode] using h

/-- C10: when `pnaclSupported` is false the crash callback performs no
recovery at all: no retried marking, no failsafe engine, no restart. -/
theorem onCrash_noop_without_pnacl (ceval : Option ClientEval) :
    onCrash false ceval = (ceval, []) := by
  unfold onCrash
  simp

/-- C4 counterexample: with `pnaclSupported` false and no stored client
evaluation, the claim's otherwise-branch demands a failsafe re-instantiation
and an analysis restart, but the code performs nothing at all. -/
theorem onCrash_claim_counterexample :
    onCrash false none = (none, []) ∧
    Effect.instanciateCeval true ∉ (onCrash false none).2 := by
  exact ⟨by decide, by decide⟩

/-- C4 (amended): provided the engine controller reports `pnaclSupported`,
a crash with a stored evaluation of depth ≥ 20 not yet retried only marks
the node retried and keeps the backend; any other crash re-instantiates the
engine with failsafe and restarts analysis; hence a second crash at depth
≥ 20 on the same node always triggers the failsafe fallback. -/
theorem onCrash_two_strike (ceval : Option ClientEval) :
    (∀ c, ceval = some c → 20 ≤ c.depth → c.retried = false →
      onCrash true ceval = (some { c with retried := true }, [])) ∧
    ((∀ c, ceval = some c → c.depth < 20 ∨ c.retried = true) →
      onCrash true ceval = (ceval, [Effect.instanciateCeval true, Effect.startCevalCall])) ∧
    (∀ c, 20 ≤ c.depth → c.retried = false →
      (onCrash true (onCrash true (some c)).1).2
        = [Effect.instanciateCeval true, Effect.startCevalCall]) := by
  refine ⟨?_, ?_, ?_⟩
  · rintro c rfl hd hr
    simp [onCrash, hd, hr]
  · intro h
    cases ceval with
    | none => simp [onCrash]
    | some c =>
      have hng : ¬(20 ≤ c.depth ∧ c.retried = false) := by
        rintro ⟨ha, hb⟩
        rcases h c rfl with h1 | h1
        · omega
        · rw [h1] at hb
          exact Bool.noConfusion hb
      simp [onCrash, hng]
  · intro c hd hr
    have h1 : (onCrash true (some c)).1 = some { c with retried := true } := by
      simp [onCrash, hd, hr]
    rw [h1]
    simp [onCrash]

/-- Witness for C4: the depth-22 scenario, first crash marks retried, the
second falls back to the failsafe backend. -/
theorem onCrash_two_strike_witness :
    onCrash true (some crashEval) = (some { crashEval with retried := true }, []) ∧
    (onCrash true (onCrash true (some crashEval)).1).2
      = [Effect.instanciateCeval true, Effect.startCevalCall] :=
  ⟨(onCrash_two_strike (some crashEval)).1 crashEval rfl (by decide) (by decide),
   (onCrash_two_strike (some crashEval)).2.2 crashEval (by decide) (by decide)⟩

/-- C6: outside a study, `canPut` is false whenever the node's ply is at
least 10, regardless of the evaluation; and `canPut` can only hold when the
server `evalPut` flag is set, `canEvalGet` holds, and — outside a study —
the stored client evaluation is not a forced mate and has centipawn
magnitude below 99. -/
theorem canPut_eligibility (study evalPut : Bool) (node : NodeData) :
    (study = false → 10 ≤ node.ply → canPut study evalPut node = some false) ∧
    (canPut study evalPut node = some true →
      evalPut = true ∧ canEvalGet study node = true ∧
      (study = false → ∃ c, node.ceval = some c ∧
        jsTruthyInt c.mate = false ∧ cpMagLt99 c.cp = true)) := by
  constructor
  · intro hs hp
    by_cases he : evalPut = false
    · simp [canPut, he]
    · have hg : canEvalGet study node = false := by
        simp only [canEvalGet, hs, Bool.false_or, decide_eq_false_iff_not]
        omega
      simp [canPut, he, hg]
  · intro h
    by_cases he : evalPut = false
    · simp [canPut, he] at h
    · by_cases hg : canEvalGet study node = false
      · simp [canPut, he, hg] at h
      · refine ⟨by simpa using he, by simpa using hg, ?_⟩
        intro hs
        subst hs
        by_cases hp : 10 ≤ node.ply
        · simp [canPut, he, hg, hp] at h
        · have hget : canEvalGet false node = true := by
            simp only [canEvalGet, Bool.false_or, decide_eq_true_eq]
            omega
          cases hc : node.ceval with
          | none => simp [canPut, he, hget, hp, hc] at h
          | some c =>
            refine ⟨c, rfl, ?_⟩
            simp [canPut, he, hget, hp, hc] at h
            exact ⟨h.1, h.2⟩

/-- Witness for C6: at ply 12 outside a study, `canPut` is false even though
the stored evaluation is favorable. -/
theorem canPut_eligibility_witness :
    canPut false true deepNode = some false :=
  (canPut_eligibility false true deepNode).1 rfl (by decide)

/-- C8 counterexample: with the engine disabled and a terminal current node
(so the claim's otherwise-branch applies), the claim demands that the engine
be stopped, but `startCeval` emits no effect at all. -/
theorem startCeval_claim_counterexample :
    canUseCeval drawNode = false ∧ startCeval false drawNode [] false = [] ∧
    Effect.cevalStop ∉ startCeval false drawNode [] false :=
  ⟨by decide, by decide, by decide⟩

/-- C8 (amended): when the engine is enabled, `startCeval` dispatches a work
item for the current path and threat mode together with an evaluation-cache
fetch for the same path if the current node is neither a terminal game state
nor flagged threefold, and stops the engine otherwise; when the engine is
disabled, `startCeval` performs no action. -/
theorem startCeval_dispatch (enabled : Bool) (n : NodeData) (p : TreePath) (tm : Bool) :
    (enabled = true → canUseCeval n = true →
      startCeval enabled n p tm = [Effect.cevalStart p tm, Effect.evalCacheFetch p]) ∧
    (enabled = true → canUseCeval n = false →
      startCeval enabled n p tm = [Effect.cevalStop]) ∧
    (enabled = false → startCeval enabled n p tm = []) := by
  refine ⟨?_, ?_, ?_⟩
  · intro h1 h2
    simp [startCeval, h1, h2]
  · intro h1 h2
    simp [startCeval, h1, h2]
  · intro h1
    simp [startCeval, h1]

/-- Witness for C8: a live root node with the engine enabled dispatches
work and a cache fetch. -/
theorem startCeval_dispatch_witness :
    startCeval true baseNode [] false
      = [Effect.cevalStart [] false, Effect.evalCacheFetch []] :=
  (startCeval_dispatch true baseNode [] false).1 rfl (by decide)

/-- A better evaluation has at least the depth of the one it beats. -/
theorem isEvalBetter_le_depth (ev c : ClientEval)
    (h : isEvalBetter ev (some c) = true) : c.depth ≤ ev.depth := by
  simp [isEvalBetter] at h
  rcases h with h | ⟨h1, _⟩ <;> omega

/-- One non-threat application never decreases the stored depth. -/
theorem onNewCeval_ceval_step (ev : ClientEval) (cx : CevalCtx) (node : NodeData)
    (c : ClientEval) (h : node.ceval = some c) :
    ∃ c2, ((onNewCevalNode ev false cx node).1).ceval = some c2 ∧ c.depth ≤ c2.depth := by
  by_cases hf : node.fen ≠ ev.fen
  · refine ⟨c, ?_, le_refl _⟩
    rw [onNewCevalNode, if_pos ⟨hf, rfl⟩]
    exact h
  · by_cases hb : isEvalBetter ev node.ceval = true
    · refine ⟨ev, ?_, ?_⟩
      · rw [onNewCevalNode, if_neg (fun hand => hf hand.1)]
        simp [hb]
      · rw [h] at hb
        exact isEvalBetter_le_depth ev c hb
    · by_cases hm : c.maxDepth < ev.maxDepth
      · refine ⟨{ c with maxDepth := ev.maxDepth }, ?_, le_refl _⟩
        rw [onNewCevalNode, if_neg (fun hand => hf hand.1)]
        simp [h] at hb
        simp [h, hb, hm]
      · refine ⟨c, ?_, le_refl _⟩
        rw [onNewCevalNode, if_neg (fun hand => hf hand.1)]
        simp [h] at hb
        simp [h, hb, hm]

/-- Along any sequence of non-threat applications the stored depth never
decreases. -/
theorem applyCevals_depth_mono (cx : CevalCtx) (evs : List ClientEval) :
    ∀ node c, node.ceval = some c →
      ∃ c2, (applyCevals cx evs node).ceval = some c2 ∧ c.depth ≤ c2.depth := by
  induction evs with
  | nil =>
    intro node c h
    exact ⟨c, h, le_refl _⟩
  | cons e es ih =>
    intro node c h
    obtain ⟨c1, hc1, hle1⟩ := onNewCeval_ceval_step e cx node c h
    obtain ⟨c2, hc2, hle2⟩ := ih ((onNewCevalNode e false cx node).1) c1 hc1
    exact ⟨c2, hc2, le_trans hle1 hle2⟩

/-- C2: a non-threat evaluation whose fen no longer matches the node is
discarded completely — the node's stored evaluations are unchanged and no
redraw or overlay notification fires; a threat evaluation passing the
ordering check is applied regardless of position identity. -/
theorem onNewCeval_stale_discard (ev : ClientEval) (cx : CevalCtx) (node : NodeData) :
    (node.fen ≠ ev.fen → onNewCevalNode ev false cx node = (node, [])) ∧
    (node.threat = none → ((onNewCevalNode ev true cx node).1).threat = some ev) ∧
    (∀ t, node.threat = some t →
      (isEvalBetter ev (some t) = true ∨ t.maxDepth < ev.maxDepth) →
      ((onNewCevalNode ev true cx node).1).threat = some ev) := by
  refine ⟨?_, ?_, ?_⟩
  · intro hf
    rw [onNewCevalNode, if_pos ⟨hf, rfl⟩]
  · intro ht
    rw [onNewCevalNode, if_neg (fun hand => Bool.noConfusion hand.2)]
    simp [ht]
  · intro t ht hcond
    rw [onNewCevalNode, if_neg (fun hand => Bool.noConfusion hand.2)]
    simp [ht, hcond]

/-- Witness for C2: an evaluation computed for a position the node no longer
holds is dropped without any effect, while a threat evaluation for a
different position is still stored. -/
theorem onNewCeval_stale_discard_witness :
    onNewCevalNode deepEval false
      { isCurrentPath := true, hasRetro := false, hasPractice := false,
        hasStudyPractice := false, effectiveMaxDepth := 18 }
      { baseNode with fen := "f1" }
      = ({ baseNode with fen := "f1" }, []) ∧
    ((onNewCevalNode deepEval true
      { isCurrentPath := true, hasRetro := false, hasPractice := false,
        hasStudyPractice := false, effectiveMaxDepth := 18 }
      { baseNode with fen := "f1" }).1).threat = some deepEval :=
  ⟨(onNewCeval_stale_discard deepEval
      { isCurrentPath := true, hasRetro := false, hasPractice := false,
        hasStudyPractice := false, effectiveMaxDepth := 18 }
      { baseNode with fen := "f1" }).1 (by decide),
   (onNewCeval_stale_discard deepEval
      { isCurrentPath := true, hasRetro := false, hasPractice := false,
        hasStudyPractice := false, effectiveMaxDepth := 18 }
      { baseNode with fen := "f1" }).2.1 (by decide)⟩

/-- C3: for non-threat evaluations applied to one node, the stored depth is
non-decreasing (single step and along any sequence), a lower-depth incoming
evaluation never replaces the stored record, and a not-better incoming
evaluation with larger `maxDepth` only bumps the stored record's `maxDepth`. -/
theorem onNewCeval_monotonicity (ev : ClientEval) (cx : CevalCtx) (node : NodeData)
    (c : ClientEval) (h : node.ceval = some c) :
    (∃ c2, ((onNewCevalNode ev false cx node).1).ceval = some c2 ∧ c.depth ≤ c2.depth) ∧
    (ev.depth < c.depth →
      ((onNewCevalNode ev false cx node).1).ceval = some c ∨
      ((onNewCevalNode ev false cx node).1).ceval
        = some { c with maxDepth := ev.maxDepth }) ∧
    (node.fen = ev.fen → isEvalBetter ev (some c) = false → c.maxDepth < ev.maxDepth →
      ((onNewCevalNode ev false cx node).1).ceval
        = some { c with maxDepth := ev.maxDepth }) ∧
    (∀ evs : List ClientEval,
      ∃ c2, (applyCevals cx evs node).ceval = some c2 ∧ c.depth ≤ c2.depth) := by
  refine ⟨onNewCeval_ceval_step ev cx node c h, ?_, ?_, ?_⟩
  · intro hlt
    have hb : isEvalBetter ev (some c) = false := by
      have h1 : ¬ ev.depth > c.depth := by omega
      have h2 : ¬ ev.depth = c.depth := by omega
      simp [isEvalBetter, h1, h2]
    by_cases hf : node.fen ≠ ev.fen
    · left
      rw [onNewCevalNode, if_pos ⟨hf, rfl⟩]
      exact h
    · rw [onNewCevalNode, if_neg (fun hand => hf hand.1)]
      by_cases hm : c.maxDepth < ev.maxDepth
      · right
        simp [h, hb, hm]
      · left
        simp [h, hb, hm]
  · intro hfen hb hm
    rw [onNewCevalNode, if_neg (fun hand => hand.1 hfen)]
    simp [h, hb, hm]
  · exact fun evs => applyCevals_depth_mono cx evs node c h

/-- The cursor path a jump commits is the jumped-to path. -/
theorem jump_path_eq (s : Ctrl) (p : TreePath) : (jump s p).1.path = p := rfl

/-- A jump to the already-current path re-renders the board but triggers no
sound, no engine stop or restart, no study/retro/practice notification, and
leaves threat mode alone. -/
theorem jump_same_path (s : Ctrl) (p : TreePath) (h : p = s.path) :
    Effect.showGround ∈ (jump s p).2 ∧ cycleCount (jump s p).2 = 0 ∧
    (jump s p).1.threatMode = s.threatMode := by
  subst h
  refine ⟨?_, ?_, ?_⟩
  · simp [jump]
  · cases hm : s.hasMusic <;> simp [jump, hm, cycleCount, jumpCycleEffects]
  · simp [jump]

/-- C1: a jump to the already-current path still re-renders the board but
plays no sound, does not reset threat mode, neither stops nor restarts the
engine, and fires no retro/practice/study notification; consequently two
successive jumps to the same path trigger the cycle at most once — the
second call contributes none of it. -/
theorem jump_idempotent (s : Ctrl) (p : TreePath) :
    (p = s.path →
      Effect.showGround ∈ (jump s p).2 ∧ cycleCount (jump s p).2 = 0 ∧
      (jump s p).1.threatMode = s.threatMode) ∧
    (Effect.showGround ∈ (jump (jump s p).1 p).2 ∧
      cycleCount (jump (jump s p).1 p).2 = 0 ∧
      (jump (jump s p).1 p).1.threatMode = (jump s p).1.threatMode) :=
  ⟨fun h => jump_same_path s p h,
   jump_same_path (jump s p).1 p (jump_path_eq s p).symm⟩

/-- Witness for C1: re-jumping to the current e4 path triggers no cycle and
keeps threat mode on. -/
theorem jump_idempotent_witness :
    cycleCount (jump sampleCtrl ["e4"]).2 = 0 ∧
    (jump sampleCtrl ["e4"]).1.threatMode = true :=
  ⟨((jump_idempotent sampleCtrl ["e4"]).1 rfl).2.1,
   ((jump_idempotent sampleCtrl ["e4"]).1 rfl).2.2⟩

/-- Removing a subtree keeps the payload of the surrounding root. -/
theorem deleteNodeAt_data (t : MoveTree) (p : TreePath) :
    (deleteNodeAt t p).data = t.data := by
  cases t with
  | mk d cs =>
    cases p with
    | nil => rfl
    | cons i rest =>
      cases rest with
      | nil => rfl
      | cons j r2 => rfl

/-- Filtering out the children carrying an id leaves no child with that id. -/
theorem childById_filter_ne (cs : List MoveTree) (i : String) :
    childById (cs.filter (fun c => !decide (c.data.id = i))) i = none := by
  apply List.find?_eq_none.mpr
  intro c hc
  have h2 := (List.mem_filter.mp hc).2
  simp at h2 ⊢
  exact h2

/-- Deleting below the child with the matching id commutes with the child
lookup. -/
theorem childById_map_delete (cs : List MoveTree) (i : String) (rest : TreePath) :
    childById (cs.map (fun c => if c.data.id = i then deleteNodeAt c rest else c)) i
      = (childById cs i).map (fun c => deleteNodeAt c rest) := by
  induction cs with
  | nil => rfl
  | cons c cs ih =>
    by_cases hc : c.data.id = i
    · simp [childById, List.find?_cons, hc, deleteNodeAt_data]
    · simp [childById, List.find?_cons, hc] at ih ⊢
      exact ih

/-- After `deleteNodeAt` the deleted path no longer resolves. -/
theorem nodeAtPath_deleteNodeAt (p : TreePath) :
    ∀ t : MoveTree, p ≠ [] → (nodeAtPath (deleteNodeAt t p) p).isNone = true := by
  induction p with
  | nil =>
    intro t h
    exact absurd rfl h
  | cons i rest ih =>
    intro t _
    cases t with
    | mk d cs =>
      cases rest with
      | nil =>
        simp [deleteNodeAt, nodeAtPath, MoveTree.children, childById_filter_ne]
      | cons j r2 =>
        simp only [deleteNodeAt, nodeAtPath, MoveTree.children]
        rw [childById_map_delete]
        cases hc : childById cs i with
        | none => simp
        | some c =>
          simp only [Option.map_some']
          exact ih c (by simp)

/-- C5 (amended): `deleteNode` is a no-op when no node resolves at the
path; a subtree of 10 or more nodes or with any comments is only deleted
after user confirmation, and declining leaves everything unchanged; a
performed deletion removes the subtree at the path, and the cursor jumps to
the parent of the deleted path when the current path lies inside the
deleted subtree, re-jumping to the unchanged current path otherwise. -/
theorem deleteNode_behaviour (confirmAnswer : Bool) (s : Ctrl) (path : TreePath) :
    ((nodeAtPath s.tree path).isNone = true →
      deleteNode confirmAnswer s path = (s, [])) ∧
    (∀ sub, nodeAtPath s.tree path = some sub →
      (10 ≤ countNodes sub ∨ 0 < countComments sub) → confirmAnswer = false →
      deleteNode confirmAnswer s path = (s, [Effect.confirmAsk])) ∧
    (∀ sub, nodeAtPath s.tree path = some sub →
      ((10 ≤ countNodes sub ∨ 0 < countComments sub) → confirmAnswer = true) →
      (deleteNode confirmAnswer s path).1.tree = deleteNodeAt s.tree path ∧
      (deleteNode confirmAnswer s path).1.path
        = (if path.isPrefixOf s.path then path.dropLast else s.path) ∧
      (path ≠ [] →
        (nodeAtPath (deleteNode confirmAnswer s path).1.tree path).isNone = true)) := by
  refine ⟨?_, ?_, ?_⟩
  · intro h
    rw [Option.isNone_iff_eq_none] at h
    simp [deleteNode, h]
  · intro sub hs hbig hconf
    subst hconf
    simp [deleteNode, hs, hbig]
  · intro sub hs hcc
    have hni : ¬((10 ≤ countNodes sub ∨ 0 < countComments sub) ∧
        confirmAnswer = false) := by
      rintro ⟨hb, hf⟩
      rw [hcc hb] at hf
      exact Bool.noConfusion hf
    have ht : (deleteNode confirmAnswer s path).1.tree = deleteNodeAt s.tree path := by
      cases hp : path.isPrefixOf s.path <;> simp [deleteNode, hs, hni, hp, jump]
    refine ⟨ht, ?_, ?_⟩
    · cases hp : path.isPrefixOf s.path <;> simp [deleteNode, hs, hni, hp, jump]
    · intro hne
      rw [ht]
      exact nodeAtPath_deleteNodeAt path s.tree hne

/-- C5 counterexample: a confirmed deletion of the 10-node subtree at
`["a"]` while the cursor is at `["b"]` removes the subtree but jumps back
to `["b"]`, not to the parent path `[]` of the deleted path as the claim
demands. -/
theorem deleteNode_claim_counterexample :
    (nodeAtPath delCtrl.tree ["a"]).map countNodes = some 10 ∧
    (deleteNode true delCtrl ["a"]).1.path = ["b"] ∧
    Effect.userJumpTo [] ∉ (deleteNode true delCtrl ["a"]).2 ∧
    (nodeAtPath (deleteNode true delCtrl ["a"]).1.tree ["a"]).isNone = true := by
  refine ⟨by decide, by decide, by decide, by decide⟩

/-- Witness for C5: a missing path is a silent no-op and an unconfirmed
large deletion only asks. -/
theorem deleteNode_behaviour_witness :
    deleteNode true delCtrl ["zz"] = (delCtrl, []) ∧
    deleteNode false delCtrl ["a"] = (delCtrl, [Effect.confirmAsk]) :=
  ⟨(deleteNode_behaviour true delCtrl ["zz"]).1 (by decide),
   (deleteNode_behaviour false delCtrl ["a"]).2.1
     (MoveTree.mk { baseNode with id := "a" } [chainTree 8]) rfl (by decide) rfl⟩

/-- C7: a failure sentinel from the tree-level `addNode` leaves tree and
cursor unchanged and only redraws (a recoverable no-op); a success jumps to
the path the tree returned. -/
theorem addNode_failure_recoverable (s : Ctrl) (n : NodeData) (path : TreePath) :
    ((addNodeAt s.tree n path).1 = none →
      addNode s n path = (s, [Effect.redraw])) ∧
    (∀ p2, (addNodeAt s.tree n path).1 = some p2 →
      (addNode s n path).1.path = p2 ∧
      (addNode s n path).1.tree = insertNodeAt s.tree n path) := by
  constructor
  · intro h
    cases hn : nodeAtPath s.tree path with
    | some sub => simp [addNodeAt, hn] at h
    | none =>
      have ht : addNodeAt s.tree n path = (none, s.tree) := by
        simp [addNodeAt, hn]
      simp [addNode, ht]
  · intro p2 h
    cases hn : nodeAtPath s.tree path with
    | none => simp [addNodeAt, hn] at h
    | some sub =>
      have ht : addNodeAt s.tree n path
          = (some (path ++ [n.id]), insertNodeAt s.tree n path) := by
        simp [addNodeAt, hn]
      have h2 : p2 = path ++ [n.id] := by
        rw [ht] at h
        exact (Option.some_inj.mp h).symm
      subst h2
      constructor
      · simp [addNode, ht, jump]
      · simp [addNode, ht, jump]

/-- Witness for C7: adding below an unresolvable path leaves the sample
controller untouched apart from a redraw. -/
theorem addNode_failure_recoverable_witness :
    addNode sampleCtrl e4Node ["zz"] = (sampleCtrl, [Effect.redraw]) :=
  (addNode_failure_recoverable sampleCtrl e4Node ["zz"]).1 (by decide)

/-- Witness for C3: a depth-8 evaluation arriving over a stored depth-10 one
only bumps the stored record's `maxDepth`. -/
theorem onNewCeval_monotonicity_witness :
    ((onNewCevalNode lowEval false cx0 evalNode).1).ceval
      = some { storedEval with maxDepth := 21 } := by
  have h := (onNewCeval_monotonicity lowEval cx0 evalNode storedEval rfl).2.2.1
    rfl (by decide) (by decide)
  exact h
